import Mathlib

/-!
Shallow embedding of the comdb2 `net.c` cluster-messaging core
(send queue, hello gate, ack correlator, hostname wire escape, peer
directory), translated from `src/net/net.c`.

Conventions of the embedding:
* machine integers that the C code keeps unsigned (`enque_count`,
  `enque_bytes`, counters) are `Nat`; signed `int` values that can be
  negative (return codes, seqnums, `paylen`) are `Int`;
* allocation (`HOST_MALLOC`) is assumed to succeed: the `-1` malloc-fail
  return of `write_list` is unreachable in the model but its mapping in
  `write_message_int` is kept;
* wall-clock timestamp fields (`enque_time`, `peak_*_time`,
  `timestamp`) and logging are omitted; they feed no claim;
* the blocking condition-variable wait of the ack correlator is modelled
  by an explicit event (`AckEvent`) saying whether an ack frame for the
  sequence number was processed before the deadline.
-/

namespace Net

def HOSTNAME_LEN : Nat := 16

/-- `sizeof(wire_header_type)`: fromhost[16], fromport, fromnode,
tohost[16], toport, tonode, type. -/
def NET_WIRE_HEADER_TYPE_LEN : Nat := 52

/-- Modelled from the spec: the numeric values of the wire-type tags are
defined in `net_int.h`, which is not among the given sources; only their
pairwise distinctness is observable in the modelled code. -/
def WIRE_HEADER_HEARTBEAT : Int := 1

def WIRE_HEADER_HELLO : Int := 2

def WIRE_HEADER_HELLO_REPLY : Int := 3

def WIRE_HEADER_USER_MSG : Int := 5

def WIRE_HEADER_ACK : Int := 6

def WIRE_HEADER_ACK_PAYLOAD : Int := 7

/-- The `WRITE_MSG_*` flag bits passed to `write_list` /
`write_message_int`, one boolean per bit. -/
structure WriteFlags where
  nodelay : Bool := false
  nohellocheck : Bool := false
  nodupe : Bool := false
  nolimit : Bool := false
  head : Bool := false
  inorder : Bool := false
deriving DecidableEq

/-- One `write_data` entry of the per-peer send queue: the flags it was
enqueued with, its total length `sizeof(wire_header_type) + datasz`, and
the wire-header `type` stored in its payload. -/
structure WriteData where
  flags : WriteFlags
  len : Nat
  htype : Int
deriving DecidableEq

/-- One `seq_data` entry of the per-peer ack wait list. -/
structure SeqData where
  seqnum : Int
  ack : Bool
  outrc : Int
  payload : Option (List Int)
  payloadlen : Int
deriving DecidableEq

/-- The fields of `host_node_type` that the modelled operations read or
write.  `hostname_len` is `strlen(host) + 1` as set by
`add_to_netinfo_ll`. -/
structure HostNode where
  queue : List WriteData := []
  enque_count : Nat := 0
  enque_bytes : Nat := 0
  peak_enque_count : Nat := 0
  peak_enque_bytes : Nat := 0
  dedupe_count : Nat := 0
  num_queue_full : Nat := 0
  got_hello : Bool := false
  hostname_len : Nat := 2
  wait_list : List SeqData := []
deriving DecidableEq

/-- The fields of `netinfo_type` that the modelled operations read.
`netcmp` is the optional `netcmp_rtn` comparator used by `INORDER`
enqueues (in C it compares raw payloads; entries carry the same data
here). -/
structure NetInfo where
  max_queue : Nat := 25000
  max_bytes : Nat := 512 * 1024 * 1024
  myhostname_len : Nat := 2
  enque_reorder_lookahead : Nat := 20
  netcmp : Option (WriteData → WriteData → Int) := none

/-- Data size of an enqueued message: the iovec bytes plus, for long
hostnames, the raw from/to name bytes that `write_list` copies after the
header (lines 628-635 and 658-666 of `net.c`). -/
def writeListDatasz (net : NetInfo) (node : HostNode) (iovLen : Nat) : Nat :=
  (iovLen + (if net.myhostname_len > HOSTNAME_LEN then net.myhostname_len else 0))
    + (if node.hostname_len > HOSTNAME_LEN then node.hostname_len else 0)

/-- The `write_data` entry `write_list` builds for a message. -/
def newEntry (net : NetInfo) (node : HostNode) (htype : Int) (iovLen : Nat)
    (flags : WriteFlags) : WriteData :=
  { flags := flags
    len := NET_WIRE_HEADER_TYPE_LEN + writeListDatasz net node iovLen
    htype := htype }

/-- The `WRITE_MSG_NODUPE` head comparison: the queue head exists and its
stored wire-header type equals the new message's type. -/
def headTypeIs (q : List WriteData) (t : Int) : Bool :=
  match q with
  | [] => false
  | h :: _ => h.htype == t

/-- The `WRITE_MSG_INORDER` bounded insertion-sort walk of `write_list`
(lines 685-721), phrased on the reversed queue (tail first): walk back
from the tail while the comparator orders the new item strictly earlier
and fewer than `enque_reorder_lookahead` steps were taken; insert after
the stopping entry (before it in the reversed list), or at the queue
head when the walk falls off the list. -/
def inorderInsertRev (cmp : WriteData → WriteData → Int) (lookahead : Nat)
    (ins : WriteData) : List WriteData → Nat → List WriteData
  | [], _ => [ins]
  | p :: rest, cnt =>
      if cmp ins p < 0 ∧ cnt < lookahead then
        p :: inorderInsertRev cmp lookahead ins rest (cnt + 1)
      else
        ins :: p :: rest

/-- `write_list` (net.c lines 587-755): admission check (one message
always slips in on an empty queue), `NODUPE` head dedup, then linking
the new entry at head / in order / at tail, updating `enque_count`,
`enque_bytes` and their peaks.  Returns the C return code (`0` ok, `-2`
queue full) and the new peer state. -/
def write_list (net : NetInfo) (node : HostNode) (htype : Int) (iovLen : Nat)
    (flags : WriteFlags) : Int × HostNode :=
  if node.enque_count ≠ 0 ∧ flags.nolimit = false ∧
      (node.enque_count > net.max_queue ∨ node.enque_bytes > net.max_bytes) then
    (-2, { node with num_queue_full := node.num_queue_full + 1 })
  else if flags.nodupe = true ∧ headTypeIs node.queue htype = true then
    (0, { node with dedupe_count := node.dedupe_count + 1 })
  else
    let ins := newEntry net node htype iovLen flags
    let q :=
      if node.queue.isEmpty then [ins]
      else if flags.head then ins :: node.queue
      else if flags.inorder ∧ net.netcmp.isSome then
        (inorderInsertRev (net.netcmp.getD (fun _ _ => 0))
            net.enque_reorder_lookahead ins node.queue.reverse 0).reverse
      else node.queue ++ [ins]
    (0, { node with
          queue := q
          enque_count := node.enque_count + 1
          peak_enque_count := max (node.enque_count + 1) node.peak_enque_count
          enque_bytes := node.enque_bytes + ins.len
          peak_enque_bytes := max (node.enque_bytes + ins.len) node.peak_enque_bytes })

/-- `write_message_int` (net.c lines 1181-1230): the `got_hello` gate
(return `-9` unless `WRITE_MSG_NOHELLOCHECK`), then `write_list`, with
`-1` (malloc fail) mapped to `2` and other negatives passed through. -/
def write_message_int (net : NetInfo) (node : HostNode) (htype : Int)
    (iovLen : Nat) (flags : WriteFlags) : Int × HostNode :=
  if flags.nohellocheck = false ∧ node.got_hello = false then
    (-9, node)
  else
    let r := write_list net node htype iovLen flags
    if r.1 < 0 then (if r.1 = -1 then 2 else r.1, r.2) else (0, r.2)

/-- `write_message_checkhello` (net.c lines 1232-1242). -/
def write_message_checkhello (net : NetInfo) (node : HostNode) (htype : Int)
    (iovLen : Nat) (nodelay nodrop inorder : Bool) : Int × HostNode :=
  write_message_int net node htype iovLen
    { nodelay := nodelay, nohellocheck := true, nolimit := nodrop,
      inorder := inorder }

/-- The flag set of `write_heartbeat`:
`HEAD | NODUPE | NODELAY | NOLIMIT`. -/
def heartbeatFlags : WriteFlags :=
  { head := true, nodupe := true, nodelay := true, nolimit := true }

/-- `write_heartbeat` (net.c lines 1310-1318): heartbeats are enqueued
with `HEAD | NODUPE | NODELAY | NOLIMIT` and an empty iovec. -/
def write_heartbeat (net : NetInfo) (node : HostNode) : Int × HostNode :=
  write_message_int net node WIRE_HEADER_HEARTBEAT 0 heartbeatFlags

/-- The `write_data` entry a heartbeat enqueue creates. -/
def heartbeatEntry (net : NetInfo) (node : HostNode) : WriteData :=
  newEntry net node WIRE_HEADER_HEARTBEAT 0 heartbeatFlags

/-- The queue-drain step at the top of `writer_thread`'s inner loop
(net.c lines 4060-4066): under the enqueue lock the whole list is
detached and both counters reset to zero. -/
def writer_detach (node : HostNode) : List WriteData × HostNode :=
  (node.queue, { node with queue := [], enque_count := 0, enque_bytes := 0 })

/-- Modelled from the spec: the `NET_SEND_FAIL_*` error-code values live
in `net.h`, which is not among the given sources; the distinct codes the
spec names are modelled as an enumeration, with non-negative handler
outcomes carried by `outcome`. -/
inductive SendRes where
  | ok : SendRes
  | queueFull : SendRes
  | mallocFail : SendRes
  | writefail : SendRes
  | timeout : SendRes
  | invalidAckRc : SendRes
  | outcome : Int → SendRes
deriving DecidableEq

/-- The return-code translation of `net_send_int` (net.c lines
2120-2145): `-2` becomes `QUEUE_FULL`, `2` becomes `MALLOC_FAIL`, any
other nonzero becomes `WRITEFAIL`, zero is success. -/
def net_send_int_rcmap (rc : Int) : SendRes :=
  if rc = -2 then SendRes.queueFull
  else if rc = 2 then SendRes.mallocFail
  else if rc ≠ 0 then SendRes.writefail
  else SendRes.ok

/-- The freshly initialised `seq_data` node built by
`add_seqnum_to_waitlist`. -/
def freshSeqEntry (seqnum : Int) : SeqData :=
  { seqnum := seqnum, ack := false, outrc := 0, payload := none,
    payloadlen := 0 }

/-- `add_seqnum_to_waitlist` (net.c lines 1520-1544): append a fresh
entry with `ack = 0`, `outrc = 0`, no payload, at the end of the list. -/
def add_seqnum_to_waitlist (wl : List SeqData) (seqnum : Int) : List SeqData :=
  wl ++ [freshSeqEntry seqnum]

/-- Output of `remove_seqnum_from_waitlist`: the entry's `outrc` (`-1`
when the seqnum is absent), the transferred payload, and the remaining
list. -/
structure RemoveResult where
  outrc : Int
  payload : Option (List Int)
  payloadlen : Int
  wl : List SeqData
deriving DecidableEq

/-- `remove_seqnum_from_waitlist` (net.c lines 1547-1580): unlink the
first entry carrying `seqnum` and hand back its outcome and payload;
return `-1` leaving the list unchanged when no entry matches. -/
def remove_seqnum_from_waitlist (wl : List SeqData) (seqnum : Int) :
    RemoveResult :=
  match wl with
  | [] => { outrc := -1, payload := none, payloadlen := 0, wl := [] }
  | s :: rest =>
      if s.seqnum = seqnum then
        { outrc := s.outrc, payload := s.payload, payloadlen := s.payloadlen,
          wl := rest }
      else
        let r := remove_seqnum_from_waitlist rest seqnum
        { r with wl := s :: r.wl }

/-- The wait-list walk of `process_ack` (net.c lines 3554-3566): set
`outrc` and `ack = 1` on the first entry carrying `seqnum`, leaving the
list unchanged when none matches. -/
def waitlist_set_ack (seqnum outrc : Int) : List SeqData → List SeqData
  | [] => []
  | s :: rest =>
      if s.seqnum = seqnum then { s with outrc := outrc, ack := true } :: rest
      else s :: waitlist_set_ack seqnum outrc rest

/-- The wait-list walk of `process_payload_ack` (net.c lines 3510-3526):
as `waitlist_set_ack` but also storing the received payload; when no
entry matches the payload buffer is freed and the list is untouched. -/
def waitlist_set_ack_payload (seqnum outrc paylen : Int)
    (payload : List Int) : List SeqData → List SeqData
  | [] => []
  | s :: rest =>
      if s.seqnum = seqnum then
        { s with outrc := outrc, payload := some payload,
                 payloadlen := paylen, ack := true } :: rest
      else s :: waitlist_set_ack_payload seqnum outrc paylen payload rest

/-- `process_ack` (net.c lines 3533-3571), after the 8 header bytes were
read: deposit the outcome on the matching wait-list entry (if any) and
report success. -/
def process_ack (node : HostNode) (seqnum outrc : Int) : Int × HostNode :=
  (0, { node with wait_list := waitlist_set_ack seqnum outrc node.wait_list })

/-- `process_payload_ack` (net.c lines 3476-3531), after the header
fields were read: a `paylen` outside `[1, 1024]` is malformed (`-1`,
state untouched); otherwise the payload is read and deposited on the
matching wait-list entry (if any) and the routine reports success. -/
def process_payload_ack (node : HostNode) (seqnum outrc paylen : Int)
    (payload : List Int) : Int × HostNode :=
  if paylen > 1024 ∨ paylen ≤ 0 then (-1, node)
  else
    (0, { node with wait_list :=
            waitlist_set_ack_payload seqnum outrc paylen payload node.wait_list })

/-- First wait-list entry carrying `seqnum`, as scanned by the ack
processing routines. -/
def waitlist_lookup : List SeqData → Int → Option SeqData
  | [], _ => none
  | s :: rest, seqnum =>
      if s.seqnum = seqnum then some s else waitlist_lookup rest seqnum

/-- What happens on the peer's ack condition before the deadline
`now + wait_ms` of `net_send_message_payload_ack`: an `ACK_PAYLOAD`
frame for the sequence number is processed, a plain `ACK` frame is
processed, or nothing arrives and the wait times out. -/
inductive AckEvent where
  | payloadAck : Int → Int → List Int → AckEvent
  | plainAck : Int → AckEvent
  | timeout : AckEvent

/-- `net_send_message_payload_ack` (net.c lines 1690-1868) on the
`waitforack` path, after the peer was found, is not self, has a socket
and is not closed, with `seqnum` freshly allocated: append a wait-list
entry, enqueue the user message via `write_message_checkhello` with
`NODELAY`; on enqueue failure remove the entry and fail with
`WRITEFAIL`; otherwise wait.  The wake-up is modelled by `ev`: the
matching frame's effect is applied, then the loop's `ack == 1` re-check
decides between handing back the (clamped) outcome and timing out.
`ackSendEnqueue` is the enqueue step (wait-list entry appended, user
message enqueued with `NODELAY` through the hello-exempt path). -/
def ackSendEnqueue (net : NetInfo) (node : HostNode) (seqnum : Int)
    (iovLen : Nat) : Int × HostNode :=
  write_message_checkhello net
    { node with wait_list := add_seqnum_to_waitlist node.wait_list seqnum }
    WIRE_HEADER_USER_MSG iovLen true false false

/-- Continuation of `net_send_message_payload_ack` as documented on
`ackSendEnqueue` above. -/
def net_send_message_payload_ack (net : NetInfo) (node : HostNode)
    (seqnum : Int) (iovLen : Nat) (ev : AckEvent) : SendRes × HostNode :=
  let w := ackSendEnqueue net node seqnum iovLen
  if w.1 ≠ 0 then
    let r := remove_seqnum_from_waitlist w.2.wait_list seqnum
    (SendRes.writefail, { w.2 with wait_list := r.wl })
  else
    let woken :=
      match ev with
      | AckEvent.payloadAck outrc paylen payload =>
          (process_payload_ack w.2 seqnum outrc paylen payload).2
      | AckEvent.plainAck outrc => (process_ack w.2 seqnum outrc).2
      | AckEvent.timeout => w.2
    if ((waitlist_lookup woken.wait_list seqnum).map SeqData.ack).getD false then
      let r := remove_seqnum_from_waitlist woken.wait_list seqnum
      ((if r.outrc < 0 then SendRes.invalidAckRc else SendRes.outcome r.outrc),
       { woken with wait_list := r.wl })
    else
      let r := remove_seqnum_from_waitlist woken.wait_list seqnum
      (SendRes.timeout, { woken with wait_list := r.wl })

/-- One peer-directory entry, reduced to the identity-relevant fields.
Hostname interning makes pointer equality on `host` coincide with
string equality, so `host` is a `String` compared structurally. -/
structure HostEntry where
  host : String
  port : Int
deriving DecidableEq

/-- `add_to_netinfo_ll` (net.c lines 2586-2676): scan the list for an
entry whose interned host matches and return it unchanged, else link a
fresh entry at the head of the list. -/
def add_to_netinfo_ll (dir : List HostEntry) (hostname : String)
    (port : Int) : HostEntry × List HostEntry :=
  match dir.find? (fun e => e.host == hostname) with
  | some e => (e, dir)
  | none =>
      let e : HostEntry := { host := hostname, port := port }
      (e, e :: dir)

/-- `add_to_netinfo` (net.c lines 2678-2708): refuse hosts the `allow`
callback rejects, else insert under the directory write lock. -/
def add_to_netinfo (allow : String → Bool) (dir : List HostEntry)
    (hostname : String) (port : Int) : Option HostEntry × List HostEntry :=
  if allow hostname = false then (none, dir)
  else
    let a := add_to_netinfo_ll dir hostname port
    (some a.1, a.2)

/-- `process_hello_common` (net.c lines 4253-4295) after a successful
`read_hostlist`: every advertised `(host, port)` is added to the
directory (connector start-up is a thread side effect outside the
state), and `got_hello = 1` is assigned inside the per-host loop.
Returns the C success code `0`, the new directory and peer state.
`hello_host_step` is the body of the per-host loop. -/
def hello_host_step (allow : String → Bool)
    (acc : List HostEntry × HostNode) (h : String × Int) :
    List HostEntry × HostNode :=
  ((add_to_netinfo allow acc.1 h.1 h.2).2, { acc.2 with got_hello := true })

def process_hello_common (allow : String → Bool) (dir : List HostEntry)
    (node : HostNode) (hosts : List (String × Int)) :
    Int × List HostEntry × HostNode :=
  let final := hosts.foldl (hello_host_step allow) (dir, node)
  (0, final.1, final.2)

/-- ASCII digit test, as used by `atoi` on the escape field. -/
def isDigitByte (b : Nat) : Bool := 48 ≤ b && b ≤ 57

/-- Modelled from the spec: the digit-accumulation core of the C library
`atoi` applied to the escape field (the inputs at hand start with a
digit, so sign and whitespace handling never fire): consume ASCII digits
and stop at the first non-digit byte. -/
def atoiLoop : List Nat → Nat → Nat
  | [], acc => acc
  | b :: rest, acc =>
      if isDigitByte b then atoiLoop rest (acc * 10 + (b - 48)) else acc

/-- Decimal digits of `n`, least significant first, as ASCII bytes. -/
def digitsRevLoop (n : Nat) : List Nat :=
  if _h : n = 0 then []
  else (48 + n % 10) :: digitsRevLoop (n / 10)
termination_by n
decreasing_by exact Nat.div_lt_self (Nat.pos_of_ne_zero _h) (by omega)

/-- ASCII decimal rendering of a positive `n`, as `snprintf` with `%d`
produces it (most significant digit first). -/
def decimalBytes (n : Nat) : List Nat := (digitsRevLoop n).reverse

/-- Modelled from the spec: `strncpy0(dst, src, 16)` (defined outside
`src/`) copies at most 15 name bytes, NUL-pads the rest of the 16-byte
field, and forces a terminating NUL. -/
def strncpy0Field (host : List Nat) : List Nat :=
  host.take (HOSTNAME_LEN - 1)
    ++ List.replicate (HOSTNAME_LEN - (host.take (HOSTNAME_LEN - 1)).length) 0

/-- The escape form of the 16-byte hostname field as `snprintf(field,
16, ".%d", len)` leaves it: `'.'`, the decimal digits, the terminating
NUL, and then whatever bytes the stack held (`junk`, zero-extended so
the field is always full). -/
def writer_dot_field (m : Nat) (junk : List Nat) : List Nat :=
  (([46] ++ decimalBytes m ++ [0] ++ junk)
      ++ List.replicate HOSTNAME_LEN 0).take HOSTNAME_LEN

/-- The hostname slot of the rewritten wire header in `writer_thread`
(net.c lines 4102-4119): a name whose `hostname_len` (`strlen + 1`)
exceeds 16 stores `"." ++ decimal hostname_len`; a short name is copied
with `strncpy0`. -/
def writer_host_field (host : List Nat) (junk : List Nat) : List Nat :=
  if host.length + 1 > HOSTNAME_LEN then
    writer_dot_field (host.length + 1) junk
  else strncpy0Field host

/-- For a long name `write_list` (net.c lines 658-666) copies the
`hostname_len = strlen + 1` raw name bytes, terminating NUL included,
right after the fixed header; they travel on the wire before the
payload. -/
def long_host_tail (host : List Nat) : List Nat := host ++ [0]

/-- The per-hostname decode step of `read_message_header` (net.c lines
1282-1305): a field starting with `'.'` is the escape, so NUL-terminate
the field at its last byte, `atoi` the digits after the dot, reject a
length outside `[1, 256]`, and read that many bytes off the stream (the
name with its NUL); an unescaped field is copied out with `strncpy0`.
Returns the decoded C-string bytes of the hostname and the rest of the
stream, or `none` when the header is rejected. -/
def readHostField (field : List Nat) (stream : List Nat) :
    Option (List Nat × List Nat) :=
  if field.headD 0 = 46 then
    let field' := field.set (HOSTNAME_LEN - 1) 0
    let namelen := atoiLoop (field'.drop 1) 0
    if namelen < 1 ∨ namelen > 256 then none
    else if stream.length < namelen then none
    else some ((stream.take namelen).takeWhile (· ≠ 0), stream.drop namelen)
  else
    some ((field.take (HOSTNAME_LEN - 1)).takeWhile (· ≠ 0), stream)

/-- State after `n` iterations of the heartbeat sender enqueueing to one
peer (`write_heartbeat` per tick, writer paused so nothing drains). -/
def iterHeartbeat (net : NetInfo) : Nat → HostNode → HostNode
  | 0, node => node
  | n + 1, node => iterHeartbeat net n (write_heartbeat net node).2

theorem write_list_rc_cases (net : NetInfo) (node : HostNode) (htype : Int)
    (iovLen : Nat) (flags : WriteFlags) :
    (write_list net node htype iovLen flags).1 = 0 ∨
    (write_list net node htype iovLen flags).1 = -2 := by
  unfold write_list
  split
  · exact Or.inr rfl
  · split
    · exact Or.inl rfl
    · exact Or.inl rfl

theorem write_list_wait_list (net : NetInfo) (node : HostNode) (htype : Int)
    (iovLen : Nat) (flags : WriteFlags) :
    (write_list net node htype iovLen flags).2.wait_list = node.wait_list := by
  unfold write_list
  split
  · rfl
  · split
    · rfl
    · rfl

theorem write_list_got_hello (net : NetInfo) (node : HostNode) (htype : Int)
    (iovLen : Nat) (flags : WriteFlags) :
    (write_list net node htype iovLen flags).2.got_hello = node.got_hello := by
  unfold write_list
  split
  · rfl
  · split
    · rfl
    · rfl

theorem write_list_queue_full_iff (net : NetInfo) (node : HostNode)
    (htype : Int) (iovLen : Nat) (flags : WriteFlags)
    (hne : node.enque_count ≠ 0) (hnl : flags.nolimit = false) :
    (write_list net node htype iovLen flags).1 = -2 ↔
      (net.max_queue < node.enque_count ∨ net.max_bytes < node.enque_bytes) := by
  unfold write_list
  split
  · rename_i h
    simp only [true_iff]
    exact h.2.2
  · rename_i h
    push_neg at h
    constructor
    · intro hrc
      exfalso
      split at hrc
      · simp at hrc
      · simp at hrc
    · intro hcap
      exfalso
      have hc := h hne hnl
      omega

theorem write_list_full_state (net : NetInfo) (node : HostNode)
    (htype : Int) (iovLen : Nat) (flags : WriteFlags)
    (hne : node.enque_count ≠ 0) (hnl : flags.nolimit = false)
    (hcap : net.max_queue < node.enque_count ∨ net.max_bytes < node.enque_bytes) :
    write_list net node htype iovLen flags =
      (-2, { node with num_queue_full := node.num_queue_full + 1 }) := by
  unfold write_list
  split
  · rfl
  · rename_i h
    exact absurd ⟨hne, hnl, by omega⟩ h

theorem write_list_empty_count_rc (net : NetInfo) (node : HostNode)
    (htype : Int) (iovLen : Nat) (flags : WriteFlags)
    (h0 : node.enque_count = 0) :
    (write_list net node htype iovLen flags).1 = 0 := by
  unfold write_list
  split
  · rename_i h
    exact absurd h0 h.1
  · split
    · rfl
    · rfl

theorem write_list_within_caps_rc (net : NetInfo) (node : HostNode)
    (htype : Int) (iovLen : Nat) (flags : WriteFlags)
    (hcap : node.enque_count ≤ net.max_queue ∧ node.enque_bytes ≤ net.max_bytes) :
    (write_list net node htype iovLen flags).1 = 0 := by
  unfold write_list
  split
  · rename_i h
    omega
  · split
    · rfl
    · rfl

theorem rcmap_write_list_queue_full (net : NetInfo) (node : HostNode)
    (htype : Int) (iovLen : Nat) (flags : WriteFlags) :
    (net_send_int_rcmap (write_list net node htype iovLen flags).1 =
        SendRes.queueFull) ↔
      (write_list net node htype iovLen flags).1 = -2 := by
  rcases write_list_rc_cases net node htype iovLen flags with h | h <;>
    rw [h] <;> simp [net_send_int_rcmap]

theorem write_list_insert_on_empty (net : NetInfo) (node : HostNode)
    (htype : Int) (iovLen : Nat) (flags : WriteFlags)
    (h0 : node.enque_count = 0) (hq : node.queue = []) :
    write_list net node htype iovLen flags =
      (0, { node with
            queue := [newEntry net node htype iovLen flags]
            enque_count := 1
            peak_enque_count := max 1 node.peak_enque_count
            enque_bytes :=
              node.enque_bytes + (newEntry net node htype iovLen flags).len
            peak_enque_bytes :=
              max (node.enque_bytes + (newEntry net node htype iovLen flags).len)
                node.peak_enque_bytes }) := by
  unfold write_list
  rw [if_neg (by simp [h0])]
  rw [if_neg (by simp [hq, headTypeIs])]
  simp [hq, h0]

def exNetSmall : NetInfo := { max_queue := 1, max_bytes := 1000 }

def exEntry : WriteData := { flags := {}, len := 52, htype := 5 }

def exNodeOver : HostNode :=
  { queue := [exEntry, exEntry], enque_count := 2, enque_bytes := 104,
    got_hello := true }

def exNodeAt : HostNode :=
  { queue := [exEntry], enque_count := 1, enque_bytes := 52,
    got_hello := true }

/-- C1 counterexample: with `max_queue = 2`, a peer whose queue holds
exactly `max_queue = 2` entries (bytes well under `max_bytes`) and a
send without `NOLIMIT` is admitted (`write_list` returns `0` and links
a third entry), not rejected with `QUEUE_FULL` as the claim asserts:
the code's admission test is strict (`enque_count > max_queue`). -/
theorem write_list_at_max_queue_admits :
    (write_list { max_queue := 2, max_bytes := 1000 }
        { queue := [exEntry, exEntry], enque_count := 2, enque_bytes := 104,
          got_hello := true } 5 10 {}).1 = 0 ∧
    (write_list { max_queue := 2, max_bytes := 1000 }
        { queue := [exEntry, exEntry], enque_count := 2, enque_bytes := 104,
          got_hello := true } 5 10 {}).2.enque_count = 3 ∧
    net_send_int_rcmap
        (write_list { max_queue := 2, max_bytes := 1000 }
            { queue := [exEntry, exEntry], enque_count := 2,
              enque_bytes := 104, got_hello := true } 5 10 {}).1 ≠
      SendRes.queueFull := by
  refine ⟨rfl, rfl, ?_⟩
  decide

/-- C1 (amended): for a peer with a non-empty queue and a send without
`NOLIMIT`, the enqueue is rejected with `QUEUE_FULL` exactly when
`enque_count > max_queue` or `enque_bytes > max_bytes`; in particular a
send with the queue at `max_queue + 1` entries is rejected, and one at
exactly `max_queue` entries (bytes within cap) succeeds. -/
theorem write_list_admission_boundary :
    (∀ (net : NetInfo) (node : HostNode) (htype : Int) (iovLen : Nat)
        (flags : WriteFlags),
        node.enque_count ≠ 0 → flags.nolimit = false →
        (net_send_int_rcmap (write_list net node htype iovLen flags).1 =
            SendRes.queueFull ↔
          (net.max_queue < node.enque_count ∨
           net.max_bytes < node.enque_bytes))) ∧
    (∀ (net : NetInfo) (node : HostNode) (htype : Int) (iovLen : Nat)
        (flags : WriteFlags),
        node.enque_count = net.max_queue + 1 → flags.nolimit = false →
        write_list net node htype iovLen flags =
          (-2, { node with num_queue_full := node.num_queue_full + 1 })) ∧
    (∀ (net : NetInfo) (node : HostNode) (htype : Int) (iovLen : Nat)
        (flags : WriteFlags),
        node.enque_count = net.max_queue →
        node.enque_bytes ≤ net.max_bytes → flags.nolimit = false →
        (write_list net node htype iovLen flags).1 = 0) := by
  refine ⟨?_, ?_, ?_⟩
  · intro net node htype iovLen flags hne hnl
    rw [rcmap_write_list_queue_full]
    exact write_list_queue_full_iff net node htype iovLen flags hne hnl
  · intro net node htype iovLen flags hcount hnl
    exact write_list_full_state net node htype iovLen flags (by omega) hnl
      (by omega)
  · intro net node htype iovLen flags hcount hbytes hnl
    exact write_list_within_caps_rc net node htype iovLen flags
      ⟨by omega, hbytes⟩

theorem write_list_admission_boundary_witness :
    (net_send_int_rcmap (write_list exNetSmall exNodeOver 5 10 {}).1 =
      SendRes.queueFull) ∧
    write_list exNetSmall exNodeOver 5 10 {} =
      (-2, { exNodeOver with num_queue_full := 1 }) ∧
    (write_list exNetSmall exNodeAt 5 10 {}).1 = 0 := by
  refine ⟨?_, ?_, ?_⟩
  · exact (write_list_admission_boundary.1 exNetSmall exNodeOver 5 10 {}
      (by decide) rfl).mpr (by decide)
  · exact write_list_admission_boundary.2.1 exNetSmall exNodeOver 5 10 {}
      (by decide) rfl
  · exact write_list_admission_boundary.2.2 exNetSmall exNodeAt 5 10 {}
      (by decide) (by decide) rfl

/-- C2: an enqueue performed while the peer's send queue is empty
(`enque_count == 0`) always succeeds; the `max_queue` / `max_bytes`
admission test is skipped entirely, even when `enque_bytes` already
exceeds `max_bytes`, and the message is linked as the sole entry. -/
theorem write_list_empty_queue_admits :
    ∀ (net : NetInfo) (node : HostNode) (htype : Int) (iovLen : Nat)
      (flags : WriteFlags),
      node.enque_count = 0 →
      (write_list net node htype iovLen flags).1 = 0 ∧
      (node.queue = [] →
        (write_list net node htype iovLen flags).2.queue =
          [newEntry net node htype iovLen flags] ∧
        (write_list net node htype iovLen flags).2.enque_count = 1) := by
  intro net node htype iovLen flags h0
  refine ⟨write_list_empty_count_rc net node htype iovLen flags h0, ?_⟩
  intro hq
  rw [write_list_insert_on_empty net node htype iovLen flags h0 hq]
  exact ⟨rfl, rfl⟩

theorem write_list_empty_queue_admits_witness :
    (write_list exNetSmall { enque_bytes := 5000 } 5 10 {}).1 = 0 ∧
    5000 > exNetSmall.max_bytes ∧
    (write_list exNetSmall { enque_bytes := 5000 } 5 10 {}).2.queue =
      [newEntry exNetSmall { enque_bytes := 5000 } 5 10 {}] := by
  have h := write_list_empty_queue_admits exNetSmall { enque_bytes := 5000 }
    5 10 {} rfl
  exact ⟨h.1, by decide, (h.2 rfl).1⟩

/-- C9: the peer-directory insert is idempotent: adding `(h, p)` a
second time returns the entry produced by the first call and leaves the
directory unchanged, equality of hosts being (interned) hostname
equality. -/
theorem add_to_netinfo_idempotent :
    ∀ (dir : List HostEntry) (h : String) (p : Int),
      (add_to_netinfo_ll (add_to_netinfo_ll dir h p).2 h p).1 =
        (add_to_netinfo_ll dir h p).1 ∧
      (add_to_netinfo_ll (add_to_netinfo_ll dir h p).2 h p).2 =
        (add_to_netinfo_ll dir h p).2 := by
  intro dir h p
  unfold add_to_netinfo_ll
  cases hf : dir.find? (fun e => e.host == h) with
  | some e => simp [hf]
  | none => simp [hf, List.find?]

theorem waitlist_set_ack_not_found (sq outrc : Int) :
    ∀ wl : List SeqData, (∀ s ∈ wl, s.seqnum ≠ sq) →
      waitlist_set_ack sq outrc wl = wl := by
  intro wl
  induction wl with
  | nil => intro _; rfl
  | cons s rest ih =>
      intro hall
      unfold waitlist_set_ack
      rw [if_neg (hall s (by simp))]
      rw [ih (fun t ht => hall t (by simp [ht]))]

theorem waitlist_set_ack_payload_not_found (sq outrc paylen : Int)
    (payload : List Int) :
    ∀ wl : List SeqData, (∀ s ∈ wl, s.seqnum ≠ sq) →
      waitlist_set_ack_payload sq outrc paylen payload wl = wl := by
  intro wl
  induction wl with
  | nil => intro _; rfl
  | cons s rest ih =>
      intro hall
      unfold waitlist_set_ack_payload
      rw [if_neg (hall s (by simp))]
      rw [ih (fun t ht => hall t (by simp [ht]))]

/-- C5: an inbound `ACK_PAYLOAD` frame is accepted only when its
`paylen` lies in `[1, 1024]`; a `paylen` of zero, negative, or greater
than 1024 makes `process_payload_ack` report the frame as malformed
(`-1`) with the peer state, wait list included, untouched. -/
theorem payload_ack_paylen_bounds :
    ∀ (node : HostNode) (sq outrc paylen : Int) (payload : List Int),
      ((paylen ≤ 0 ∨ 1024 < paylen) →
        process_payload_ack node sq outrc paylen payload = (-1, node)) ∧
      ((process_payload_ack node sq outrc paylen payload).1 = 0 ↔
        (1 ≤ paylen ∧ paylen ≤ 1024)) := by
  intro node sq outrc paylen payload
  constructor
  · intro hbad
    unfold process_payload_ack
    rw [if_pos (by omega)]
  · unfold process_payload_ack
    split
    · rename_i hcond
      constructor
      · intro habs
        exact absurd habs (by norm_num)
      · intro hrange
        exfalso
        omega
    · rename_i hcond
      push_neg at hcond
      constructor
      · intro _
        omega
      · intro _
        rfl

theorem payload_ack_paylen_bounds_witness :
    process_payload_ack {} 1 7 0 [] = (-1, ({} : HostNode)) ∧
    process_payload_ack {} 1 7 2000 [3] = (-1, ({} : HostNode)) ∧
    (process_payload_ack {} 1 7 4 [1, 2, 3, 4]).1 = 0 := by
  refine ⟨?_, ?_, ?_⟩
  · exact (payload_ack_paylen_bounds {} 1 7 0 []).1 (Or.inl (by decide))
  · exact (payload_ack_paylen_bounds {} 1 7 2000 [3]).1 (Or.inr (by decide))
  · exact (payload_ack_paylen_bounds {} 1 7 4 [1, 2, 3, 4]).2.mpr (by decide)

/-- C10: an inbound `ACK` or (well-formed) `ACK_PAYLOAD` frame whose
seqnum matches no wait-list entry is silently discarded: the peer state,
wait-list entries included, is unchanged and the processing routine
reports success, so the connection stays up. -/
theorem unmatched_ack_ignored :
    ∀ (node : HostNode) (sq outrc paylen : Int) (payload : List Int),
      (∀ s ∈ node.wait_list, s.seqnum ≠ sq) →
      process_ack node sq outrc = (0, node) ∧
      (0 < paylen → paylen ≤ 1024 →
        process_payload_ack node sq outrc paylen payload = (0, node)) := by
  intro node sq outrc paylen payload hfresh
  constructor
  · unfold process_ack
    rw [waitlist_set_ack_not_found sq outrc node.wait_list hfresh]
  · intro h1 h2
    unfold process_payload_ack
    rw [if_neg (by omega)]
    rw [waitlist_set_ack_payload_not_found sq outrc paylen payload
      node.wait_list hfresh]

def exWaitNode : HostNode :=
  { wait_list := [{ seqnum := 9, ack := false, outrc := 0, payload := none,
                    payloadlen := 0 }] }

theorem unmatched_ack_ignored_witness :
    process_ack exWaitNode 5 3 = (0, exWaitNode) ∧
    process_payload_ack exWaitNode 5 3 4 [1, 2, 3, 4] = (0, exWaitNode) := by
  have h := unmatched_ack_ignored exWaitNode 5 3 4 [1, 2, 3, 4] (by decide)
  exact ⟨h.1, h.2 (by decide) (by decide)⟩

theorem write_message_int_gate_closed (net : NetInfo) (node : HostNode)
    (htype : Int) (iovLen : Nat) (flags : WriteFlags)
    (hh : flags.nohellocheck = false) (hg : node.got_hello = false) :
    write_message_int net node htype iovLen flags = (-9, node) := by
  unfold write_message_int
  rw [if_pos ⟨hh, hg⟩]

theorem write_message_int_gate_open (net : NetInfo) (node : HostNode)
    (htype : Int) (iovLen : Nat) (flags : WriteFlags)
    (hg : node.got_hello = true) :
    write_message_int net node htype iovLen flags =
      write_list net node htype iovLen flags := by
  unfold write_message_int
  rw [if_neg (by simp [hg])]
  rcases write_list_rc_cases net node htype iovLen flags with h | h
  · rw [if_neg (by rw [h]; norm_num)]
    conv_rhs => rw [← Prod.mk.eta (p := write_list net node htype iovLen flags)]
    rw [h]
  · rw [if_pos (by rw [h]; norm_num), if_neg (by rw [h]; norm_num)]

theorem hello_fold_got_hello (allow : String → Bool) :
    ∀ (hosts : List (String × Int)) (acc : List HostEntry × HostNode),
      hosts ≠ [] →
      (hosts.foldl (hello_host_step allow) acc).2.got_hello = true := by
  intro hosts
  induction hosts with
  | nil => intro acc h; exact absurd rfl h
  | cons h t ih =>
      intro acc _
      rw [List.foldl_cons]
      cases t with
      | nil => rfl
      | cons h2 t2 => exact ih _ (by simp)

def exNoHelloNode : HostNode := { got_hello := false }

/-- C4 counterexample: a `HELLO` whose (successfully parsed) host list
is empty is consumed without error, `process_hello_common` returns the
success code `0`, yet `got_hello` stays false (the assignment sits
inside the per-host loop) and a subsequent hello-checked send still
fails with `-9`; so consuming a `HELLO` does not by itself make
`got_hello` true. -/
theorem hello_gate_empty_hello_counterexample :
    (process_hello_common (fun _ => true) [] exNoHelloNode []).1 = 0 ∧
    (process_hello_common
        (fun _ => true) [] exNoHelloNode []).2.2.got_hello = false ∧
    (write_message_int exNetSmall exNoHelloNode 5 10 {}).1 = -9 := by
  exact ⟨rfl, rfl, rfl⟩

/-- C4 (amended): while a peer's `got_hello` flag is false, enqueueing
any message whose flags lack `NO_HELLO_CHECK` fails with `NO_HELLO_YET`
(`-9`) and leaves the peer, queue included, unchanged; once a `HELLO`
or `HELLO_REPLY` carrying at least one host has been consumed for the
peer, `got_hello` is true, and a send to a peer with `got_hello` set
goes straight to the queue-admission path. -/
theorem hello_gate :
    (∀ (net : NetInfo) (node : HostNode) (htype : Int) (iovLen : Nat)
        (flags : WriteFlags),
        flags.nohellocheck = false → node.got_hello = false →
        write_message_int net node htype iovLen flags = (-9, node)) ∧
    (∀ (allow : String → Bool) (dir : List HostEntry) (node : HostNode)
        (hosts : List (String × Int)),
        hosts ≠ [] →
        (process_hello_common allow dir node hosts).2.2.got_hello = true) ∧
    (∀ (net : NetInfo) (node : HostNode) (htype : Int) (iovLen : Nat)
        (flags : WriteFlags),
        node.got_hello = true →
        write_message_int net node htype iovLen flags =
          write_list net node htype iovLen flags) := by
  refine ⟨?_, ?_, ?_⟩
  · intro net node htype iovLen flags hh hg
    exact write_message_int_gate_closed net node htype iovLen flags hh hg
  · intro allow dir node hosts hne
    exact hello_fold_got_hello allow hosts (dir, node) hne
  · intro net node htype iovLen flags hg
    exact write_message_int_gate_open net node htype iovLen flags hg

theorem hello_gate_witness :
    write_message_int exNetSmall exNoHelloNode 5 10 {} =
      (-9, exNoHelloNode) ∧
    (process_hello_common (fun _ => true) [] exNoHelloNode
        [("b", 9002)]).2.2.got_hello = true ∧
    write_message_int exNetSmall exNodeAt 5 10 {} =
      write_list exNetSmall exNodeAt 5 10 {} := by
  refine ⟨?_, ?_, ?_⟩
  · exact hello_gate.1 exNetSmall exNoHelloNode 5 10 {} rfl rfl
  · exact hello_gate.2.1 (fun _ => true) [] exNoHelloNode [("b", 9002)]
      (by decide)
  · exact hello_gate.2.2 exNetSmall exNodeAt 5 10 {} rfl

theorem write_list_dedupe (net : NetInfo) (node : HostNode) (htype : Int)
    (iovLen : Nat) (flags : WriteFlags)
    (hnd : flags.nodupe = true)
    (hadm : flags.nolimit = true ∨
      (node.enque_count ≤ net.max_queue ∧ node.enque_bytes ≤ net.max_bytes))
    (hhead : headTypeIs node.queue htype = true) :
    write_list net node htype iovLen flags =
      (0, { node with dedupe_count := node.dedupe_count + 1 }) := by
  unfold write_list
  rw [if_neg ?hadmneg]
  case hadmneg =>
    rintro ⟨h1, h2, h3⟩
    rcases hadm with h | h
    · rw [h] at h2
      exact absurd h2 (by norm_num)
    · omega
  rw [if_pos ⟨hnd, hhead⟩]

theorem write_heartbeat_insert (net : NetInfo) (node : HostNode)
    (hg : node.got_hello = true)
    (hq : node.queue = [] ∨
      headTypeIs node.queue WIRE_HEADER_HEARTBEAT = false) :
    write_heartbeat net node =
      (0, { node with
            queue := heartbeatEntry net node :: node.queue
            enque_count := node.enque_count + 1
            peak_enque_count := max (node.enque_count + 1) node.peak_enque_count
            enque_bytes := node.enque_bytes + (heartbeatEntry net node).len
            peak_enque_bytes :=
              max (node.enque_bytes + (heartbeatEntry net node).len)
                node.peak_enque_bytes }) := by
  unfold write_heartbeat
  rw [write_message_int_gate_open net node _ _ _ hg]
  unfold write_list
  rw [if_neg (by rintro ⟨h1, h2, h3⟩; simp [heartbeatFlags] at h2)]
  rw [if_neg ?hdupe]
  case hdupe =>
    rcases hq with hq | hq
    · simp [hq, headTypeIs]
    · simp [hq]
  rcases hq with hq | hq <;>
    simp [hq, heartbeatEntry, heartbeatFlags, newEntry]

theorem write_heartbeat_dedupe (net : NetInfo) (node : HostNode)
    (hg : node.got_hello = true)
    (hh : headTypeIs node.queue WIRE_HEADER_HEARTBEAT = true) :
    write_heartbeat net node =
      (0, { node with dedupe_count := node.dedupe_count + 1 }) := by
  unfold write_heartbeat
  rw [write_message_int_gate_open net node _ _ _ hg]
  exact write_list_dedupe net node WIRE_HEADER_HEARTBEAT 0 heartbeatFlags
    rfl (Or.inl rfl) hh

theorem iterHeartbeat_dedupes (net : NetInfo) :
    ∀ (n : Nat) (node : HostNode),
      node.got_hello = true →
      headTypeIs node.queue WIRE_HEADER_HEARTBEAT = true →
      iterHeartbeat net n node =
        { node with dedupe_count := node.dedupe_count + n } := by
  intro n
  induction n with
  | zero =>
      intro node hg hh
      simp [iterHeartbeat]
  | succ k ih =>
      intro node hg hh
      unfold iterHeartbeat
      rw [write_heartbeat_dedupe net node hg hh]
      rw [ih { node with dedupe_count := node.dedupe_count + 1 } hg hh]
      have harith : node.dedupe_count + 1 + k = node.dedupe_count + (k + 1) := by
        omega
      rw [harith]

def exNodeDistinctHead : HostNode :=
  { queue := [{ flags := {}, len := 60, htype := 9 }], enque_count := 1,
    enque_bytes := 60, got_hello := true }

/-- C7 counterexample: an enqueue carrying `NODUPE` (but not `NOLIMIT`)
onto an over-cap queue whose head has the same type is rejected with
`QUEUE_FULL` (`-2`) and `dedupe_count` is not touched: the admission
check of `write_list` runs before the dedup check, so the claimed
"dropped and still returns success" behaviour fails. -/
theorem nodupe_queue_full_counterexample :
    (write_list exNetSmall exNodeOver 5 10 { nodupe := true }).1 = -2 ∧
    (write_list exNetSmall exNodeOver 5 10
        { nodupe := true }).2.dedupe_count = 0 ∧
    headTypeIs exNodeOver.queue 5 = true := by
  exact ⟨rfl, rfl, rfl⟩

/-- C7 (amended): for an enqueue carrying `NODUPE` that passes the
admission check (`NOLIMIT` set, as heartbeats always do, or the queue
within both caps), a queue head of the same wire-header type makes the
new item be dropped — queue and byte/count counters unchanged —
`dedupe_count` is bumped and the call returns success; consequently
`n + 1` heartbeats enqueued onto an undrained queue (empty or with a
non-heartbeat head) leave exactly one heartbeat at the head and bump
`dedupe_count` exactly `n` times. -/
theorem nodupe_dedup_heartbeats :
    (∀ (net : NetInfo) (node : HostNode) (htype : Int) (iovLen : Nat)
        (flags : WriteFlags),
        flags.nodupe = true →
        (flags.nolimit = true ∨
          (node.enque_count ≤ net.max_queue ∧
           node.enque_bytes ≤ net.max_bytes)) →
        headTypeIs node.queue htype = true →
        write_list net node htype iovLen flags =
          (0, { node with dedupe_count := node.dedupe_count + 1 })) ∧
    (∀ (net : NetInfo) (node : HostNode) (n : Nat),
        node.got_hello = true →
        (node.queue = [] ∨
          headTypeIs node.queue WIRE_HEADER_HEARTBEAT = false) →
        (iterHeartbeat net (n + 1) node).queue =
          heartbeatEntry net node :: node.queue ∧
        (iterHeartbeat net (n + 1) node).dedupe_count =
          node.dedupe_count + n ∧
        (iterHeartbeat net (n + 1) node).enque_count =
          node.enque_count + 1) := by
  constructor
  · intro net node htype iovLen flags hnd hadm hhead
    exact write_list_dedupe net node htype iovLen flags hnd hadm hhead
  · intro net node n hg hq
    have hstep :
        iterHeartbeat net (n + 1) node =
          iterHeartbeat net n (write_heartbeat net node).2 := rfl
    rw [hstep, write_heartbeat_insert net node hg hq]
    dsimp only
    have happ := iterHeartbeat_dedupes net n
      { node with
        queue := heartbeatEntry net node :: node.queue
        enque_count := node.enque_count + 1
        peak_enque_count := max (node.enque_count + 1) node.peak_enque_count
        enque_bytes := node.enque_bytes + (heartbeatEntry net node).len
        peak_enque_bytes :=
          max (node.enque_bytes + (heartbeatEntry net node).len)
            node.peak_enque_bytes }
      hg (by simp [headTypeIs, heartbeatEntry, newEntry])
    rw [happ]
    exact ⟨rfl, rfl, rfl⟩

theorem nodupe_dedup_heartbeats_witness :
    write_list exNetSmall exNodeAt 5 10 { nodupe := true, nolimit := true } =
      (0, { exNodeAt with dedupe_count := 1 }) ∧
    (iterHeartbeat exNetSmall 50 exNodeDistinctHead).queue =
      heartbeatEntry exNetSmall exNodeDistinctHead ::
        exNodeDistinctHead.queue ∧
    (iterHeartbeat exNetSmall 50 exNodeDistinctHead).dedupe_count = 49 := by
  refine ⟨?_, ?_, ?_⟩
  · exact nodupe_dedup_heartbeats.1 exNetSmall exNodeAt 5 10
      { nodupe := true, nolimit := true } rfl (Or.inl rfl) (by decide)
  · exact (nodupe_dedup_heartbeats.2 exNetSmall exNodeDistinctHead 49 rfl
      (Or.inr (by decide))).1
  · exact (nodupe_dedup_heartbeats.2 exNetSmall exNodeDistinctHead 49 rfl
      (Or.inr (by decide))).2.1

/-- The C6 invariant: the queue counters agree with the linked list —
`enque_count` is the number of linked entries and `enque_bytes` the sum
of their `len` fields. -/
def queueInv (node : HostNode) : Prop :=
  node.enque_count = node.queue.length ∧
  node.enque_bytes = (node.queue.map WriteData.len).sum

theorem inorderInsertRev_length (cmp : WriteData → WriteData → Int)
    (la : Nat) (ins : WriteData) :
    ∀ (l : List WriteData) (cnt : Nat),
      (inorderInsertRev cmp la ins l cnt).length = l.length + 1 := by
  intro l
  induction l with
  | nil => intro cnt; rfl
  | cons p rest ih =>
      intro cnt
      unfold inorderInsertRev
      split
      · simp [ih]
      · simp

theorem inorderInsertRev_sum (cmp : WriteData → WriteData → Int)
    (la : Nat) (ins : WriteData) :
    ∀ (l : List WriteData) (cnt : Nat),
      ((inorderInsertRev cmp la ins l cnt).map WriteData.len).sum =
        (l.map WriteData.len).sum + ins.len := by
  intro l
  induction l with
  | nil => intro cnt; simp [inorderInsertRev]
  | cons p rest ih =>
      intro cnt
      unfold inorderInsertRev
      split
      · simp [ih]
        omega
      · simp
        omega

theorem write_list_preserves_queueInv (net : NetInfo) (node : HostNode)
    (htype : Int) (iovLen : Nat) (flags : WriteFlags)
    (hinv : queueInv node) :
    queueInv (write_list net node htype iovLen flags).2 := by
  obtain ⟨hc, hb⟩ := hinv
  unfold write_list
  split
  · exact ⟨hc, hb⟩
  · split
    · exact ⟨hc, hb⟩
    · constructor
      · show node.enque_count + 1 = _
        split
        · rename_i hq
          rw [List.isEmpty_iff] at hq
          simp [hq] at hc
          simp [hc]
        · split
          · simp [hc]
          · split
            · rw [List.length_reverse, inorderInsertRev_length]
              simp [hc]
            · simp [hc]
      · show node.enque_bytes + _ = _
        split
        · rename_i hq
          rw [List.isEmpty_iff] at hq
          simp [hq] at hb
          simp [hb]
        · split
          · simp [hb]
            omega
          · split
            · rw [List.map_reverse, List.sum_reverse, inorderInsertRev_sum]
              rw [List.map_reverse, List.sum_reverse]
              omega
            · simp [hb]

/-- C6: at all times `enque_bytes` is the sum of `entry.len` over the
linked send queue and `enque_count` its length; the enqueue path
(`write_list`, which adds the new entry's length) preserves the
invariant for every flag combination, and the writer's drain detaches
the entire list and resets both counters to zero in the same critical
section, trivially re-establishing it. -/
theorem queue_counter_invariant :
    (∀ (net : NetInfo) (node : HostNode) (htype : Int) (iovLen : Nat)
        (flags : WriteFlags),
        queueInv node →
        queueInv (write_list net node htype iovLen flags).2) ∧
    (∀ node : HostNode,
        (writer_detach node).1 = node.queue ∧
        (writer_detach node).2.queue = [] ∧
        (writer_detach node).2.enque_count = 0 ∧
        (writer_detach node).2.enque_bytes = 0 ∧
        queueInv (writer_detach node).2) := by
  constructor
  · intro net node htype iovLen flags hinv
    exact write_list_preserves_queueInv net node htype iovLen flags hinv
  · intro node
    exact ⟨rfl, rfl, rfl, rfl, rfl, rfl⟩

theorem queue_counter_invariant_witness :
    queueInv exNodeAt ∧
    queueInv (write_list exNetSmall exNodeAt 5 10 {}).2 ∧
    queueInv (writer_detach exNodeAt).2 := by
  refine ⟨⟨rfl, rfl⟩, ?_, ?_⟩
  · exact queue_counter_invariant.1 exNetSmall exNodeAt 5 10 {} ⟨rfl, rfl⟩
  · exact (queue_counter_invariant.2 exNodeAt).2.2.2.2

theorem remove_waitlist_append_fresh (sq : Int) (e : SeqData)
    (he : e.seqnum = sq) :
    ∀ wl : List SeqData, (∀ s ∈ wl, s.seqnum ≠ sq) →
      remove_seqnum_from_waitlist (wl ++ [e]) sq =
        { outrc := e.outrc, payload := e.payload,
          payloadlen := e.payloadlen, wl := wl } := by
  intro wl
  induction wl with
  | nil =>
      intro _
      simp [remove_seqnum_from_waitlist, he]
  | cons s rest ih =>
      intro hall
      rw [List.cons_append]
      unfold remove_seqnum_from_waitlist
      rw [if_neg (hall s (by simp))]
      rw [ih (fun t ht => hall t (by simp [ht]))]

theorem set_ack_append_fresh (sq outrc : Int) (e : SeqData)
    (he : e.seqnum = sq) :
    ∀ wl : List SeqData, (∀ s ∈ wl, s.seqnum ≠ sq) →
      waitlist_set_ack sq outrc (wl ++ [e]) =
        wl ++ [{ e with outrc := outrc, ack := true }] := by
  intro wl
  induction wl with
  | nil =>
      intro _
      simp [waitlist_set_ack, he]
  | cons s rest ih =>
      intro hall
      rw [List.cons_append]
      unfold waitlist_set_ack
      rw [if_neg (hall s (by simp))]
      rw [ih (fun t ht => hall t (by simp [ht]))]
      rw [List.cons_append]

theorem set_ack_payload_append_fresh (sq outrc paylen : Int)
    (payload : List Int) (e : SeqData) (he : e.seqnum = sq) :
    ∀ wl : List SeqData, (∀ s ∈ wl, s.seqnum ≠ sq) →
      waitlist_set_ack_payload sq outrc paylen payload (wl ++ [e]) =
        wl ++
          [{ e with
             outrc := outrc
             payload := some payload
             payloadlen := paylen
             ack := true }] := by
  intro wl
  induction wl with
  | nil =>
      intro _
      simp [waitlist_set_ack_payload, he]
  | cons s rest ih =>
      intro hall
      rw [List.cons_append]
      unfold waitlist_set_ack_payload
      rw [if_neg (hall s (by simp))]
      rw [ih (fun t ht => hall t (by simp [ht]))]
      rw [List.cons_append]

theorem lookup_append_fresh (sq : Int) (e : SeqData) (he : e.seqnum = sq) :
    ∀ wl : List SeqData, (∀ s ∈ wl, s.seqnum ≠ sq) →
      waitlist_lookup (wl ++ [e]) sq = some e := by
  intro wl
  induction wl with
  | nil =>
      intro _
      simp [waitlist_lookup, he]
  | cons s rest ih =>
      intro hall
      rw [List.cons_append]
      unfold waitlist_lookup
      rw [if_neg (hall s (by simp))]
      exact ih (fun t ht => hall t (by simp [ht]))

theorem write_message_int_wait_list (net : NetInfo) (node : HostNode)
    (htype : Int) (iovLen : Nat) (flags : WriteFlags) :
    (write_message_int net node htype iovLen flags).2.wait_list =
      node.wait_list := by
  simp only [write_message_int]
  split
  · rfl
  · split
    · exact write_list_wait_list net node htype iovLen flags
    · exact write_list_wait_list net node htype iovLen flags

theorem ackSendEnqueue_wait_list (net : NetInfo) (node : HostNode)
    (seqnum : Int) (iovLen : Nat) :
    (ackSendEnqueue net node seqnum iovLen).2.wait_list =
      node.wait_list ++ [freshSeqEntry seqnum] := by
  unfold ackSendEnqueue write_message_checkhello
  rw [write_message_int_wait_list]
  rfl

/-- C3: the `waitforack` ack RPC send (fresh sequence number): on
enqueue failure it removes the just-added wait-list entry and returns
`WRITEFAIL`; when no ack arrives by the deadline it removes the entry
and returns `TIMEOUT`; when an ack (plain or payload-carrying with a
well-formed `paylen`) arrives before the deadline it removes the entry
and returns the handler's outcome, a negative outcome being remapped to
`INVALID_ACK_RC`; the returned value is never a negative handler code. -/
theorem net_send_payload_ack_outcomes :
    ∀ (net : NetInfo) (node : HostNode) (seqnum : Int) (iovLen : Nat),
      (∀ s ∈ node.wait_list, s.seqnum ≠ seqnum) →
      (∀ ev, (ackSendEnqueue net node seqnum iovLen).1 ≠ 0 →
        (net_send_message_payload_ack net node seqnum iovLen ev).1 =
          SendRes.writefail ∧
        (net_send_message_payload_ack net node seqnum iovLen
            ev).2.wait_list = node.wait_list) ∧
      ((ackSendEnqueue net node seqnum iovLen).1 = 0 →
        (net_send_message_payload_ack net node seqnum iovLen
            AckEvent.timeout).1 = SendRes.timeout ∧
        (net_send_message_payload_ack net node seqnum iovLen
            AckEvent.timeout).2.wait_list = node.wait_list) ∧
      (∀ outrc, (ackSendEnqueue net node seqnum iovLen).1 = 0 →
        (net_send_message_payload_ack net node seqnum iovLen
            (AckEvent.plainAck outrc)).1 =
          (if outrc < 0 then SendRes.invalidAckRc
           else SendRes.outcome outrc) ∧
        (net_send_message_payload_ack net node seqnum iovLen
            (AckEvent.plainAck outrc)).2.wait_list = node.wait_list) ∧
      (∀ (outrc paylen : Int) (payload : List Int),
        (ackSendEnqueue net node seqnum iovLen).1 = 0 →
        0 < paylen → paylen ≤ 1024 →
        (net_send_message_payload_ack net node seqnum iovLen
            (AckEvent.payloadAck outrc paylen payload)).1 =
          (if outrc < 0 then SendRes.invalidAckRc
           else SendRes.outcome outrc) ∧
        (net_send_message_payload_ack net node seqnum iovLen
            (AckEvent.payloadAck outrc paylen payload)).2.wait_list =
          node.wait_list) ∧
      (∀ ev r,
        (net_send_message_payload_ack net node seqnum iovLen ev).1 =
          SendRes.outcome r → 0 ≤ r) := by
  intro net node seqnum iovLen hfresh
  have hwl := ackSendEnqueue_wait_list net node seqnum iovLen
  refine ⟨?_, ?_, ?_, ?_, ?_⟩
  · intro ev henq
    unfold net_send_message_payload_ack
    dsimp only
    rw [if_pos henq]
    refine ⟨rfl, ?_⟩
    dsimp only
    rw [hwl, remove_waitlist_append_fresh seqnum (freshSeqEntry seqnum) rfl
      node.wait_list hfresh]
  · intro h0
    unfold net_send_message_payload_ack
    dsimp only
    rw [if_neg (by simp [h0])]
    have hlook : waitlist_lookup
        (ackSendEnqueue net node seqnum iovLen).2.wait_list seqnum =
        some (freshSeqEntry seqnum) := by
      rw [hwl]
      exact lookup_append_fresh seqnum (freshSeqEntry seqnum) rfl
        node.wait_list hfresh
    rw [hlook]
    rw [if_neg (by simp [freshSeqEntry])]
    refine ⟨rfl, ?_⟩
    dsimp only
    rw [hwl, remove_waitlist_append_fresh seqnum (freshSeqEntry seqnum) rfl
      node.wait_list hfresh]
  · intro outrc h0
    unfold net_send_message_payload_ack
    dsimp only
    rw [if_neg (by simp [h0])]
    have hw : (process_ack (ackSendEnqueue net node seqnum iovLen).2 seqnum
        outrc).2.wait_list =
        node.wait_list ++
          [{ freshSeqEntry seqnum with outrc := outrc, ack := true }] := by
      unfold process_ack
      dsimp only
      rw [hwl]
      exact set_ack_append_fresh seqnum outrc (freshSeqEntry seqnum) rfl
        node.wait_list hfresh
    have hlook : waitlist_lookup
        (process_ack (ackSendEnqueue net node seqnum iovLen).2 seqnum
          outrc).2.wait_list seqnum =
        some { freshSeqEntry seqnum with outrc := outrc, ack := true } := by
      rw [hw]
      exact lookup_append_fresh seqnum _ rfl node.wait_list hfresh
    rw [hlook]
    rw [if_pos (by simp)]
    refine ⟨?_, ?_⟩
    · dsimp only
      rw [hw, remove_waitlist_append_fresh seqnum _ rfl node.wait_list hfresh]
    · dsimp only
      rw [hw, remove_waitlist_append_fresh seqnum _ rfl node.wait_list hfresh]
  · intro outrc paylen payload h0 hp1 hp2
    unfold net_send_message_payload_ack
    dsimp only
    rw [if_neg (by simp [h0])]
    have hppa : process_payload_ack (ackSendEnqueue net node seqnum iovLen).2
        seqnum outrc paylen payload =
        (0, { (ackSendEnqueue net node seqnum iovLen).2 with
              wait_list := waitlist_set_ack_payload seqnum outrc paylen payload
                (ackSendEnqueue net node seqnum iovLen).2.wait_list }) := by
      unfold process_payload_ack
      rw [if_neg (by omega)]
    rw [hppa]
    have hw : waitlist_set_ack_payload seqnum outrc paylen payload
        (ackSendEnqueue net node seqnum iovLen).2.wait_list =
        node.wait_list ++
          [{ freshSeqEntry seqnum with
             outrc := outrc
             payload := some payload
             payloadlen := paylen
             ack := true }] := by
      rw [hwl]
      exact set_ack_payload_append_fresh seqnum outrc paylen payload
        (freshSeqEntry seqnum) rfl node.wait_list hfresh
    dsimp only
    rw [hw]
    rw [lookup_append_fresh seqnum _ rfl node.wait_list hfresh]
    rw [if_pos (by simp)]
    refine ⟨?_, ?_⟩
    · dsimp only
      rw [remove_waitlist_append_fresh seqnum _ rfl node.wait_list hfresh]
    · dsimp only
      rw [remove_waitlist_append_fresh seqnum _ rfl node.wait_list hfresh]
  · intro ev r hr
    unfold net_send_message_payload_ack at hr
    dsimp only at hr
    split at hr
    · exact absurd hr (by simp)
    · split at hr
      · split at hr
        · exact absurd hr (by simp)
        · rename_i hneg
          have hinj := SendRes.outcome.inj hr
          omega
      · exact absurd hr (by simp)

theorem net_send_payload_ack_outcomes_witness :
    (net_send_message_payload_ack exNetSmall exNodeOver 42 16
        AckEvent.timeout).1 = SendRes.writefail ∧
    (net_send_message_payload_ack exNetSmall exNodeAt 42 16
        AckEvent.timeout).1 = SendRes.timeout ∧
    (net_send_message_payload_ack exNetSmall exNodeAt 42 16
        (AckEvent.plainAck 7)).1 = SendRes.outcome 7 ∧
    (net_send_message_payload_ack exNetSmall exNodeAt 42 16
        (AckEvent.payloadAck (-3) 4 [1, 2, 3, 4])).1 =
      SendRes.invalidAckRc := by
  refine ⟨?_, ?_, ?_, ?_⟩
  · exact ((net_send_payload_ack_outcomes exNetSmall exNodeOver 42 16
      (by decide)).1 AckEvent.timeout (by decide)).1
  · exact ((net_send_payload_ack_outcomes exNetSmall exNodeAt 42 16
      (by decide)).2.1 (by decide)).1
  · have h := ((net_send_payload_ack_outcomes exNetSmall exNodeAt 42 16
      (by decide)).2.2.1 7 (by decide)).1
    rw [h]
    decide
  · have h := ((net_send_payload_ack_outcomes exNetSmall exNodeAt 42 16
      (by decide)).2.2.2.1 (-3) 4 [1, 2, 3, 4] (by decide) (by decide)
      (by decide)).1
    rw [h]
    decide

theorem digitsRevLoop_zero : digitsRevLoop 0 = [] := by
  unfold digitsRevLoop
  simp

theorem digitsRevLoop_pos (n : Nat) (h : n ≠ 0) :
    digitsRevLoop n = (48 + n % 10) :: digitsRevLoop (n / 10) := by
  conv_lhs => unfold digitsRevLoop
  rw [dif_neg h]

theorem atoiLoop_stop (t : List Nat) (acc : Nat) :
    atoiLoop (0 :: t) acc = acc := by
  simp [atoiLoop, isDigitByte]

theorem atoiLoop_cons_digit (b : Nat) (l : List Nat) (acc : Nat)
    (h : isDigitByte b = true) :
    atoiLoop (b :: l) acc = atoiLoop l (acc * 10 + (b - 48)) := by
  show (if isDigitByte b then atoiLoop l (acc * 10 + (b - 48)) else acc) = _
  rw [if_pos h]

theorem atoiLoop_decimal :
    ∀ (n : Nat) (l : List Nat) (acc : Nat),
      atoiLoop (decimalBytes n ++ l) acc =
        atoiLoop l (acc * 10 ^ (decimalBytes n).length + n) := by
  intro n
  induction n using Nat.strong_induction_on with
  | _ n ih =>
    intro l acc
    by_cases h0 : n = 0
    · subst h0
      simp [decimalBytes, digitsRevLoop_zero, atoiLoop]
    · have hlt : n / 10 < n := Nat.div_lt_self (Nat.pos_of_ne_zero h0) (by omega)
      have hstep := ih (n / 10) hlt ((48 + n % 10) :: l) acc
      simp only [decimalBytes] at hstep ⊢
      rw [digitsRevLoop_pos n h0, List.reverse_cons, List.append_assoc,
        List.singleton_append, hstep]
      have hdigit : isDigitByte (48 + n % 10) = true := by
        simp only [isDigitByte, Bool.and_eq_true, decide_eq_true_eq]
        omega
      rw [atoiLoop_cons_digit _ _ _ hdigit]
      have hlen : ((digitsRevLoop (n / 10)).reverse ++ [48 + n % 10]).length =
          (digitsRevLoop (n / 10)).reverse.length + 1 := by
        simp
      rw [hlen, pow_succ, ← mul_assoc]
      have hsub : 48 + n % 10 - 48 = n % 10 := by omega
      rw [hsub]
      congr 1
      generalize acc * 10 ^ (digitsRevLoop (n / 10)).reverse.length = A
      omega

theorem digitsRevLoop_length_le :
    ∀ (k n : Nat), n < 10 ^ k → (digitsRevLoop n).length ≤ k := by
  intro k
  induction k with
  | zero =>
      intro n h
      have hn : n = 0 := by
        simp at h
        omega
      subst hn
      simp [digitsRevLoop_zero]
  | succ j ih =>
      intro n h
      by_cases h0 : n = 0
      · subst h0
        simp [digitsRevLoop_zero]
      · rw [digitsRevLoop_pos n h0]
        simp only [List.length_cons]
        have hlt : n / 10 < 10 ^ j := by
          rw [Nat.div_lt_iff_lt_mul (by omega : (0 : Nat) < 10)]
          calc n < 10 ^ (j + 1) := h
            _ = 10 ^ j * 10 := pow_succ 10 j
        have := ih (n / 10) hlt
        omega

theorem set_append_of_le (v : Nat) :
    ∀ (p q : List Nat) (i : Nat), p.length ≤ i →
      (p ++ q).set i v = p ++ q.set (i - p.length) v := by
  intro p
  induction p with
  | nil =>
      intro q i _
      simp
  | cons a rest ih =>
      intro q i h
      cases i with
      | zero => simp at h
      | succ j =>
          have h' : rest.length ≤ j := by simpa using h
          show a :: (rest ++ q).set j v =
            a :: (rest ++ q.set (j + 1 - (rest.length + 1)) v)
          rw [ih q j h']
          have heq : j - rest.length = j + 1 - (rest.length + 1) := by omega
          rw [heq]

theorem takeWhile_ne_zero_self :
    ∀ host : List Nat, (∀ b ∈ host, b ≠ 0) →
      host.takeWhile (· ≠ 0) = host := by
  intro host
  induction host with
  | nil => intro _; rfl
  | cons a rest ih =>
      intro h
      have ha : a ≠ 0 := h a (by simp)
      rw [List.takeWhile_cons, if_pos (by simp [ha]),
        ih (fun b hb => h b (by simp [hb]))]

theorem takeWhile_ne_zero_append (t : List Nat) :
    ∀ host : List Nat, (∀ b ∈ host, b ≠ 0) →
      (host ++ 0 :: t).takeWhile (· ≠ 0) = host := by
  intro host
  induction host with
  | nil =>
      intro _
      rw [List.nil_append, List.takeWhile_cons, if_neg (by simp)]
  | cons a rest ih =>
      intro h
      have ha : a ≠ 0 := h a (by simp)
      rw [List.cons_append, List.takeWhile_cons, if_pos (by simp [ha]),
        ih (fun b hb => h b (by simp [hb]))]

theorem readHostField_inline (host : List Nat) (stream : List Nat)
    (hlen : host.length ≤ 15) (hz : ∀ b ∈ host, b ≠ 0)
    (hdot : host.headD 0 ≠ 46) :
    readHostField (strncpy0Field host) stream = some (host, stream) := by
  have htake : host.take (HOSTNAME_LEN - 1) = host :=
    List.take_of_length_le (by simpa [HOSTNAME_LEN] using hlen)
  have hfield : strncpy0Field host =
      host ++ List.replicate (16 - host.length) 0 := by
    unfold strncpy0Field
    rw [htake]
    rfl
  unfold readHostField
  rw [hfield]
  rw [if_neg ?hnotdot]
  case hnotdot =>
    cases host with
    | nil => simp [List.replicate]
    | cons a rest =>
        simp only [List.cons_append, List.headD_cons]
        simpa using hdot
  have htake15 : (host ++ List.replicate (16 - host.length) 0).take
      (HOSTNAME_LEN - 1) = host ++ List.replicate (15 - host.length) 0 := by
    show (host ++ List.replicate (16 - host.length) 0).take 15 = _
    rw [List.take_append_eq_append_take, List.take_of_length_le hlen,
      List.take_replicate]
    congr 2
    omega
  rw [htake15]
  by_cases hfull : host.length = 15
  · have hrep : (15 : Nat) - host.length = 0 := by omega
    rw [hrep]
    simp only [List.replicate, List.append_nil]
    rw [takeWhile_ne_zero_self host hz]
  · have hrep : (15 : Nat) - host.length = (14 - host.length) + 1 := by omega
    rw [hrep, List.replicate_succ]
    rw [takeWhile_ne_zero_append (List.replicate (14 - host.length) 0) host hz]

theorem writer_dot_field_spec (m : Nat) (junk : List Nat) (hm : m ≤ 9999) :
    (writer_dot_field m junk).headD 0 = 46 ∧
    ∃ t : List Nat,
      ((writer_dot_field m junk).set (HOSTNAME_LEN - 1) 0).drop 1 =
        decimalBytes m ++ 0 :: t := by
  have hD : (decimalBytes m).length ≤ 4 := by
    have := digitsRevLoop_length_le 4 m (by omega)
    simpa [decimalBytes] using this
  have hfield : writer_dot_field m junk =
      46 :: ((decimalBytes m ++ 0 :: (junk ++ List.replicate 16 0)).take 15) := by
    unfold writer_dot_field
    simp only [List.append_assoc]
    rfl
  have hT : (decimalBytes m ++ 0 :: (junk ++ List.replicate 16 0)).take 15 =
      decimalBytes m ++
        0 :: ((junk ++ List.replicate 16 0).take
          (14 - (decimalBytes m).length)) := by
    rw [List.take_append_eq_append_take,
      List.take_of_length_le (by omega : (decimalBytes m).length ≤ 15)]
    congr 1
    have h15 : 15 - (decimalBytes m).length =
        (14 - (decimalBytes m).length) + 1 := by omega
    rw [h15]
    rfl
  refine ⟨by rw [hfield]; rfl, ?_⟩
  refine ⟨((junk ++ List.replicate 16 0).take
      (14 - (decimalBytes m).length)).set
      (14 - ((decimalBytes m).length + 1)) 0, ?_⟩
  rw [hfield, hT]
  show (decimalBytes m ++
      0 :: ((junk ++ List.replicate 16 0).take
        (14 - (decimalBytes m).length))).set 14 0 = _
  have hassoc : decimalBytes m ++
      0 :: ((junk ++ List.replicate 16 0).take
        (14 - (decimalBytes m).length)) =
      (decimalBytes m ++ [0]) ++
        ((junk ++ List.replicate 16 0).take
          (14 - (decimalBytes m).length)) := by
    rw [List.append_assoc]
    rfl
  rw [hassoc, set_append_of_le 0 (decimalBytes m ++ [0]) _ 14 (by simp; omega)]
  have hidx : 14 - (decimalBytes m ++ [0]).length =
      14 - ((decimalBytes m).length + 1) := by simp
  rw [hidx, List.append_assoc]
  rfl

theorem readHostField_dot (m : Nat) (junk stream : List Nat)
    (hm : m ≤ 9999) :
    readHostField (writer_dot_field m junk) stream =
      (if m < 1 ∨ m > 256 then none
       else if stream.length < m then none
       else some ((stream.take m).takeWhile (· ≠ 0), stream.drop m)) := by
  obtain ⟨hhead, t, ht⟩ := writer_dot_field_spec m junk hm
  have hname : atoiLoop
      (((writer_dot_field m junk).set (HOSTNAME_LEN - 1) 0).drop 1) 0 = m := by
    rw [ht, atoiLoop_decimal]
    rw [atoiLoop_stop]
    ring
  unfold readHostField
  rw [if_pos hhead]
  dsimp only
  rw [hname]

theorem readHostField_escape (host junk rest : List Nat)
    (hlen1 : 16 ≤ host.length) (hlen2 : host.length ≤ 255)
    (hz : ∀ b ∈ host, b ≠ 0) :
    readHostField (writer_host_field host junk)
      (long_host_tail host ++ rest) = some (host, rest) := by
  have hwf : writer_host_field host junk =
      writer_dot_field (host.length + 1) junk := by
    unfold writer_host_field
    rw [if_pos (by simp only [HOSTNAME_LEN]; omega)]
  rw [hwf, readHostField_dot _ _ _ (by omega)]
  rw [if_neg (by omega)]
  have hstreamlen : (long_host_tail host ++ rest).length =
      host.length + 1 + rest.length := by
    simp [long_host_tail]
    omega
  rw [if_neg (by rw [hstreamlen]; omega)]
  have htail : long_host_tail host ++ rest = (host ++ [0]) ++ rest := by
    simp [long_host_tail]
  have htake : ((host ++ [0]) ++ rest).take (host.length + 1) =
      host ++ [0] := by
    rw [List.take_append_eq_append_take,
      List.take_of_length_le (by simp)]
    simp
  have hdrop : ((host ++ [0]) ++ rest).drop (host.length + 1) = rest :=
    List.drop_left' (by simp)
  rw [htail, htake, hdrop, takeWhile_ne_zero_append [] host hz]

/-- C8: the hostname wire escape of the rewritten header: a name of
length 15 or less is stored inline (NUL-padded) in the 16-byte field,
while a longer name (length 16 and up) stores `"."` followed by the
decimal `hostname_len` (`strlen + 1`) with its terminating NUL — the
bytes after the NUL are whatever the stack held — and the raw name
bytes (NUL included) travel right after the fixed header; the read side
inverts this exactly for any such padding, treating a leading `'.'` as
the escape and reading that many following bytes, and it rejects
decoded lengths outside `[1, 256]`. -/
theorem hostname_escape_roundtrip :
    (∀ (host junk : List Nat), host.length ≤ 15 →
        writer_host_field host junk = strncpy0Field host) ∧
    (∀ (host junk : List Nat), 16 ≤ host.length →
        writer_host_field host junk =
          writer_dot_field (host.length + 1) junk ∧
        (host.length ≤ 255 →
          (writer_host_field host junk).headD 0 = 46)) ∧
    (∀ (host junk stream : List Nat),
        host.length ≤ 15 → (∀ b ∈ host, b ≠ 0) → host.headD 0 ≠ 46 →
        readHostField (writer_host_field host junk) stream =
          some (host, stream)) ∧
    (∀ (host junk rest : List Nat),
        16 ≤ host.length → host.length ≤ 255 → (∀ b ∈ host, b ≠ 0) →
        readHostField (writer_host_field host junk)
          (long_host_tail host ++ rest) = some (host, rest)) ∧
    (∀ (m : Nat) (junk stream : List Nat), 256 < m → m ≤ 9999 →
        readHostField (writer_dot_field m junk) stream = none) ∧
    (∀ stream : List Nat,
        readHostField (46 :: 48 :: List.replicate 14 0) stream = none) := by
  refine ⟨?_, ?_, ?_, ?_, ?_, ?_⟩
  · intro host junk hlen
    unfold writer_host_field
    rw [if_neg (by simp only [HOSTNAME_LEN]; omega)]
  · intro host junk hlen
    have hwf : writer_host_field host junk =
        writer_dot_field (host.length + 1) junk := by
      unfold writer_host_field
      rw [if_pos (by simp only [HOSTNAME_LEN]; omega)]
    refine ⟨hwf, fun hlen2 => ?_⟩
    rw [hwf]
    exact (writer_dot_field_spec (host.length + 1) junk (by omega)).1
  · intro host junk stream hlen hz hdot
    have hwf : writer_host_field host junk = strncpy0Field host := by
      unfold writer_host_field
      rw [if_neg (by simp only [HOSTNAME_LEN]; omega)]
    rw [hwf]
    exact readHostField_inline host stream hlen hz hdot
  · intro host junk rest hlen1 hlen2 hz
    exact readHostField_escape host junk rest hlen1 hlen2 hz
  · intro m junk stream hm1 hm2
    rw [readHostField_dot m junk stream hm2, if_pos (by omega)]
  · intro stream
    rfl

theorem hostname_escape_roundtrip_witness :
    readHostField (writer_host_field [97, 98, 99] [7, 9]) [1, 2] =
      some ([97, 98, 99], [1, 2]) ∧
    readHostField (writer_host_field (List.replicate 16 97) [7, 9])
        (long_host_tail (List.replicate 16 97) ++ [5, 6]) =
      some (List.replicate 16 97, [5, 6]) ∧
    readHostField (writer_dot_field 300 [7, 9]) [1, 2] = none ∧
    readHostField (46 :: 48 :: List.replicate 14 0) [1, 2] = none := by
  refine ⟨?_, ?_, ?_, ?_⟩
  · exact hostname_escape_roundtrip.2.2.1 [97, 98, 99] [7, 9] [1, 2]
      (by decide) (by decide) (by decide)
  · exact hostname_escape_roundtrip.2.2.2.1 (List.replicate 16 97) [7, 9]
      [5, 6] (by decide) (by decide) (by decide)
  · exact hostname_escape_roundtrip.2.2.2.2.1 300 [7, 9] [1, 2]
      (by decide) (by decide)
  · exact hostname_escape_roundtrip.2.2.2.2.2 [1, 2]

end Net
